import Mathlib

/-!
Verification development for the qca-annotator annotation-surface core.

The TypeScript sources are shallowly embedded below.  JavaScript numbers
are modelled as exact rationals (`ℚ`) wherever the program only performs
field operations and comparisons, and as real numbers (`ℝ`) where the
program uses `Math.sqrt`, `Math.PI` or `Math.pow` with fractional
exponents.  JavaScript `Math.round` (round half towards positive
infinity) coincides with Mathlib's `round` (`⌊x + 1/2⌋`) on every input.
-/

namespace QCA

/-- `Point` (src/src/Canvas/Point, used by src/src/Canvas/AbstractLine.tsx):
a pair of coordinates in logical image space. -/
structure Point where
  x : ℚ
  y : ℚ
deriving DecidableEq

/-- `AbstractLine.computeLength` (src/src/Canvas/AbstractLine.tsx lines 14-17):
`Math.sqrt(Math.pow(endX - startX, 2) + Math.pow(endY - startY, 2))`. -/
noncomputable def computeLength (startPoint endPoint : Point) : ℝ :=
  Real.sqrt (((endPoint.x : ℝ) - (startPoint.x : ℝ)) ^ 2 +
    ((endPoint.y : ℝ) - (startPoint.y : ℝ)) ^ 2)

/-- The slope computation of the `PixelLine` constructor
(src/src/Canvas/PixelLine.tsx lines 11-19).  The axis with the greater
absolute delta is stepped at unit magnitude, the other at
`delta_minor / |delta_major|`.  (src/src/Frame.tsx lines 104-109 repeat
the identical computation for the propagation walk.)  In the degenerate
case `deltaX = deltaY = 0` JavaScript produces `[NaN, -1]` and the walk
below stops after its first iteration; the rational model yields
`[0, -1]`, whose walk also stops after the first iteration with the same
visited point, so the two agree on every observable output. -/
def pixelSlope (startPoint endPoint : Point) : ℚ × ℚ :=
  let deltaX := endPoint.x - startPoint.x
  let deltaY := endPoint.y - startPoint.y
  if |deltaX| > |deltaY| then
    let relSlope := deltaY / |deltaX|
    if deltaX > 0 then (1, relSlope) else (-1, relSlope)
  else
    let relSlope := deltaX / |deltaY|
    if deltaY > 0 then (relSlope, 1) else (relSlope, -1)

/-- Loop guard of `computePixelCoordinates`
(src/src/Canvas/PixelLine.tsx line 27):
`(slope[0] > 0 ? x <= endX : x >= endX) && (slope[1] > 0 ? y <= endY : y >= endY)`. -/
def walkCond (slope : ℚ × ℚ) (endX endY x y : ℚ) : Bool :=
  (if slope.1 > 0 then decide (x ≤ endX) else decide (endX ≤ x)) &&
    (if slope.2 > 0 then decide (y ≤ endY) else decide (endY ≤ y))

/-- The while-loop of `computePixelCoordinates`
(src/src/Canvas/PixelLine.tsx lines 25-35), written with explicit fuel.
State: current position `(x, y)` and the last pushed rounded point
`(lastX, lastY)`.  A rounded point is pushed only when it differs from
the previous one. -/
def walkAux (slope : ℚ × ℚ) (endX endY : ℚ) :
    ℕ → ℚ → ℚ → ℤ → ℤ → List (ℤ × ℤ)
  | 0, _, _, _, _ => []
  | fuel + 1, x, y, lastX, lastY =>
    if walkCond slope endX endY x y then
      if round x ≠ lastX ∨ round y ≠ lastY then
        (round x, round y) ::
          walkAux slope endX endY fuel (x + slope.1) (y + slope.2) (round x) (round y)
      else
        walkAux slope endX endY fuel (x + slope.1) (y + slope.2) lastX lastY
    else []

/-- Fuel that strictly exceeds the number of iterations of the walk: the
dominant axis advances by a unit step each iteration, so the loop runs at
most `⌈|Δmajor|⌉ + 1` times. -/
def walkFuel (startPoint endPoint : Point) : ℕ :=
  (⌈|endPoint.x - startPoint.x|⌉ + ⌈|endPoint.y - startPoint.y|⌉).toNat + 2

/-- `PixelLine.computePixelCoordinates` (src/src/Canvas/PixelLine.tsx
lines 24-36): `x = startX, y = startY`, `lastX = round(x) - 1`,
`lastY = round(y) - 1`, then the while-loop. -/
def computePixelCoordinates (startPoint endPoint : Point) (slope : ℚ × ℚ) :
    List (ℤ × ℤ) :=
  walkAux slope endPoint.x endPoint.y (walkFuel startPoint endPoint)
    startPoint.x startPoint.y (round startPoint.x - 1) (round startPoint.y - 1)

/-- `PixelLine` (src/src/Canvas/PixelLine.tsx): start/end points, the
normalized slope and the walked pixel path, all fixed at construction. -/
structure PixelLine where
  startPoint : Point
  endPoint : Point
  slope : ℚ × ℚ
  points : List (ℤ × ℤ)
deriving DecidableEq

/-- The `PixelLine` constructor (src/src/Canvas/PixelLine.tsx lines 9-21). -/
def mkPixelLine (startPoint endPoint : Point) : PixelLine :=
  let slope := pixelSlope startPoint endPoint
  ⟨startPoint, endPoint, slope, computePixelCoordinates startPoint endPoint slope⟩

/-- `FluidLine` (src/src/Canvas/FluidLine.tsx): carries only the geometry
of its endpoints; its `draw` renders a continuous stroke and does not touch
component state. -/
structure FluidLine where
  startPoint : Point
  endPoint : Point
deriving DecidableEq

/-- The two line variants that can be recorded as `lastObjectType`
(src/src/Canvas/Canvas.tsx line 53). -/
inductive LineVariant
  | fluidVariant
  | pixelVariant
deriving DecidableEq

/-- An element of the combined `state.lines` array
(src/src/Canvas/Canvas.tsx line 20), which holds both variants. -/
inductive CanvasLine
  | fluid (l : FluidLine)
  | pixel (l : PixelLine)
deriving DecidableEq

/-- The `Canvas` component state together with the props and instance
fields relevant to the modelled operations
(src/src/Canvas/Canvas.tsx lines 13-79): `maxLines` prop, the three line
collections, `editMode`, `lastObjectType`, the canvas dimensions and the
captured background pixel buffer (`originalImageData`, `none` until the
background image has loaded). -/
structure CanvasM where
  maxLines : ℕ
  lines : List CanvasLine
  fluidLines : List FluidLine
  pixelLines : List PixelLine
  editMode : Bool
  lastObjectType : Option LineVariant
  height : ℕ
  width : ℕ
  originalImageData : Option (List ℕ)
deriving DecidableEq

/-- The initial canvas state (src/src/Canvas/Canvas.tsx lines 50-53 and
65-72): no lines, `editMode = true`, `lastObjectType = null`. -/
def initCanvas (maxLines : ℕ) : CanvasM :=
  ⟨maxLines, [], [], [], true, none, 512, 512, none⟩

/-- `addFluidLine` (src/src/Canvas/Canvas.tsx lines 169-181): guarded by
`fluidLines.length < maxLines && pixelLines.length === 0`; records
`lastObjectType`, and when `save` holds appends the line to `lines` and
`fluidLines` and recomputes
`editMode = editMode && prevState.lines.length + 1 < maxLines`. -/
def addFluidLine (c : CanvasM) (line : FluidLine) (save : Bool) : CanvasM :=
  if c.fluidLines.length < c.maxLines ∧ c.pixelLines.length = 0 then
    let c1 := { c with lastObjectType := some LineVariant.fluidVariant }
    if save then
      { c1 with
        lines := c1.lines ++ [CanvasLine.fluid line],
        fluidLines := c1.fluidLines ++ [line],
        editMode := c1.editMode && decide (c1.lines.length + 1 < c1.maxLines) }
    else c1
  else c

/-- `addPixelLine` (src/src/Canvas/Canvas.tsx lines 184-196): the mirror
image of `addFluidLine` for the pixel variant. -/
def addPixelLine (c : CanvasM) (pixelLine : PixelLine) (save : Bool) : CanvasM :=
  if c.pixelLines.length < c.maxLines ∧ c.fluidLines.length = 0 then
    let c1 := { c with lastObjectType := some LineVariant.pixelVariant }
    if save then
      { c1 with
        lines := c1.lines ++ [CanvasLine.pixel pixelLine],
        pixelLines := c1.pixelLines ++ [pixelLine],
        editMode := c1.editMode && decide (c1.lines.length + 1 < c1.maxLines) }
    else c1
  else c

/-- `undoLast` (src/src/Canvas/Canvas.tsx lines 328-342): pops the last
element of the collection matching `lastObjectType`
(`slice(0, length - 1)` is `dropLast`, also on the empty array) and sets
`editMode = prevCollection.length - 1 < maxLines` (JavaScript arithmetic,
so the subtraction is over ℤ). -/
def undoLast (c : CanvasM) : CanvasM :=
  match c.lastObjectType with
  | some LineVariant.fluidVariant =>
      { c with
        lines := c.lines.dropLast,
        fluidLines := c.fluidLines.dropLast,
        editMode := decide ((c.fluidLines.length : ℤ) - 1 < (c.maxLines : ℤ)) }
  | some LineVariant.pixelVariant =>
      { c with
        lines := c.lines.dropLast,
        pixelLines := c.pixelLines.dropLast,
        editMode := decide ((c.pixelLines.length : ℤ) - 1 < (c.maxLines : ℤ)) }
  | none => c

/-- `undoAll` (src/src/Canvas/Canvas.tsx lines 345-356): clears every
collection, resets `lastObjectType` and re-enables edit mode. -/
def undoAll (c : CanvasM) : CanvasM :=
  { c with
    lastObjectType := none,
    lines := [],
    fluidLines := [],
    pixelLines := [],
    editMode := true }

/-- `toggleEdit` (src/src/Canvas/Canvas.tsx lines 323-325):
`editMode = !editMode && fluidLines.length < maxLines`. -/
def toggleEdit (c : CanvasM) : CanvasM :=
  { c with editMode := !c.editMode && decide (c.fluidLines.length < c.maxLines) }

/-- The operations an operator (or the propagator) can run on a canvas. -/
inductive CanvasOp
  | addFluidLine (line : FluidLine)
  | addPixelLine (pixelLine : PixelLine)
  | undoLast
  | undoAll
  | toggleEdit
deriving DecidableEq

/-- One operation step on a canvas (public adds use `save = true`). -/
def stepCanvas (op : CanvasOp) (c : CanvasM) : CanvasM :=
  match op with
  | CanvasOp.addFluidLine line => addFluidLine c line true
  | CanvasOp.addPixelLine pixelLine => addPixelLine c pixelLine true
  | CanvasOp.undoLast => undoLast c
  | CanvasOp.undoAll => undoAll c
  | CanvasOp.toggleEdit => toggleEdit c

/-- A finite sequence of operations applied in order. -/
def applyOps (ops : List CanvasOp) (c : CanvasM) : CanvasM :=
  ops.foldl (fun c op => stepCanvas op c) c

/-- `line.length` for an element of the combined `lines` array:
both variants inherit `AbstractLine.computeLength`. -/
noncomputable def lineLength : CanvasLine → ℝ
  | CanvasLine.fluid l => computeLength l.startPoint l.endPoint
  | CanvasLine.pixel l => computeLength l.startPoint l.endPoint

/-- `computeDiameterStenosisPercentage` (src/src/Canvas/Canvas.tsx lines
199-204): `undefined` unless `lines.length === maxLines`, otherwise the
lengths are sorted ascending (`sort((a, b) => a - b)`) and the result is
`2 * l[0] / (l[1] + l[2]) * 100`. -/
noncomputable def computeDiameterStenosisPercentage (c : CanvasM) : Option ℝ :=
  if c.lines.length ≠ c.maxLines then none
  else
    let lengthsArray := (c.lines.map lineLength).insertionSort (· ≤ ·)
    some (2 * lengthsArray.getD 0 0 / (lengthsArray.getD 1 0 + lengthsArray.getD 2 0) * 100)

/-- `computeAreaStenosisPercentage` (src/src/Canvas/Canvas.tsx lines
207-212): as above but returning
`2·π·(0.5·l[0])² / (π·(0.5·l[1])² + π·(0.5·l[2])²) · 100`. -/
noncomputable def computeAreaStenosisPercentage (c : CanvasM) : Option ℝ :=
  if c.lines.length ≠ c.maxLines then none
  else
    let lengthsArray := (c.lines.map lineLength).insertionSort (· ≤ ·)
    some (2 * Real.pi * (0.5 * lengthsArray.getD 0 0) ^ 2 /
      (Real.pi * (0.5 * lengthsArray.getD 1 0) ^ 2 +
        Real.pi * (0.5 * lengthsArray.getD 2 0) ^ 2) * 100)

/-- `Canvas.scaleFactor` (src/src/Canvas/Canvas.tsx line 30). -/
noncomputable def scaleFactor : ℝ := 1.1

/-- `Canvas.maxZoomOut` (src/src/Canvas/Canvas.tsx line 31). -/
noncomputable def maxZoomOut : ℝ := 0.2

/-- The effect of `zoom(magnitude)` on the cumulative `zoomFactor`
(src/src/Canvas/Canvas.tsx lines 365-377):
`factor = scaleFactor ** magnitude`; if `zoomFactor * factor` would drop
below `maxZoomOut`, the factor is replaced by
`maxZoomOut / zoomFactor`; then `zoomFactor *= factor`. -/
noncomputable def zoomStep (zoomFactor : ℝ) (magnitude : ℝ) : ℝ :=
  let factor := scaleFactor ^ magnitude
  let factor' := if zoomFactor * factor < maxZoomOut then maxZoomOut / zoomFactor else factor
  zoomFactor * factor'

/-- `Frame.maxLines` (src/src/Frame.tsx line 39). -/
def frameMaxLines : ℕ := 3

/-- A byte read `mask[i]` on a `Uint8ClampedArray`: JavaScript yields
`undefined` (modelled `none`) outside the bounds. -/
def readByte (mask : List ℕ) (i : ℤ) : Option ℕ :=
  if 0 ≤ i ∧ i < (mask.length : ℤ) then some (mask.getD i.toNat 0) else none

/-- The byte offset the propagation loop reads
(src/src/Frame.tsx line 116, src/unnamed/part_000 line 166):
`index = roundedCol*rows*4 + roundedRow*4`, where `rows` is the mask
canvas height, `roundedRow = round(row)` tracks the x coordinate and
`roundedCol = round(col)` tracks the y coordinate. -/
def maskIndex (rows : ℤ) (row col : ℚ) : ℤ :=
  round col * rows * 4 + round row * 4

/-- Modelled from the spec: the byte offset the specification prescribes
for the pixel-classification read, `index = round(y)*width*4 +
round(x)*4` with `width` the target's pixel width (spec section 4.3,
step 3).  The source multiplies by the target height instead; this
definition exists only to compare the two. -/
def specIndex (width : ℤ) (x y : ℚ) : ℤ :=
  round y * width * 4 + round x * 4

/-- Foreground test of the propagation loop (src/src/Frame.tsx line 117):
all four bytes at the index equal 255. -/
def isWhite (mask : List ℕ) (index : ℤ) : Bool :=
  decide (readByte mask index = some 255) && decide (readByte mask (index + 1) = some 255) &&
    decide (readByte mask (index + 2) = some 255) && decide (readByte mask (index + 3) = some 255)

/-- Background test of the propagation loop (src/src/Frame.tsx line 125):
bytes `(0, 0, 0, 255)`. -/
def isBlack (mask : List ℕ) (index : ℤ) : Bool :=
  decide (readByte mask index = some 0) && decide (readByte mask (index + 1) = some 0) &&
    decide (readByte mask (index + 2) = some 0) && decide (readByte mask (index + 3) = some 255)

/-- The mutable locals of the propagation walk
(src/src/Frame.tsx lines 111-114): the `start` flag and the tentative
start/end coordinates of the output line. -/
structure PropagateState where
  start : Bool
  maskStartX : ℚ
  maskStartY : ℚ
  maskEndX : ℚ
  maskEndY : ℚ
deriving DecidableEq

/-- The propagation while-loop (src/src/Frame.tsx lines 115-132), with
explicit fuel.  Loop guard on the sign of the deltas; at each iteration
the four bytes at `maskIndex rows row col` are classified; a foreground
pixel starts or extends the tentative line, a background pixel after the
line has started breaks out of the loop. -/
def propagateWalkAux (mask : List ℕ) (rows : ℤ) (slope : ℚ × ℚ)
    (deltaX deltaY endX endY : ℚ) :
    ℕ → ℚ → ℚ → PropagateState → PropagateState
  | 0, _, _, st => st
  | fuel + 1, row, col, st =>
    if (if deltaX > 0 then decide (row ≤ endX) else decide (endX ≤ row)) &&
        (if deltaY > 0 then decide (col ≤ endY) else decide (endY ≤ col)) then
      let index := maskIndex rows row col
      if isWhite mask index then
        let st' :=
          if st.start = false then
            PropagateState.mk true row col row col
          else { st with maskEndX := row, maskEndY := col }
        propagateWalkAux mask rows slope deltaX deltaY endX endY fuel
          (row + slope.1) (col + slope.2) st'
      else if isBlack mask index && st.start then st
      else
        propagateWalkAux mask rows slope deltaX deltaY endX endY fuel
          (row + slope.1) (col + slope.2) st
    else st

/-- The per-line body of `propagateLinesToMask`
(src/src/Frame.tsx lines 102-134): compute the slope exactly as the
`PixelLine` constructor does, walk the line over the mask buffer, and
build the propagated `PixelLine` from the recorded start/end. -/
def propagateLine (mask : List ℕ) (rows : ℤ) (line : FluidLine) : PixelLine :=
  let deltaX := line.endPoint.x - line.startPoint.x
  let deltaY := line.endPoint.y - line.startPoint.y
  let slope := pixelSlope line.startPoint line.endPoint
  let st := propagateWalkAux mask rows slope deltaX deltaY
    line.endPoint.x line.endPoint.y (walkFuel line.startPoint line.endPoint)
    line.startPoint.x line.startPoint.y (PropagateState.mk false 0 0 0 0)
  mkPixelLine (Point.mk st.maskStartX st.maskStartY) (Point.mk st.maskEndX st.maskEndY)

/-- A `Frame` owns an image canvas and a mask canvas
(src/src/Frame.tsx lines 42-43). -/
structure FrameM where
  imageCanvas : CanvasM
  maskCanvas : CanvasM
deriving DecidableEq

/-- `propagateLinesToMask` (src/src/Frame.tsx lines 92-136): reads the
image canvas lines, the mask buffer and the mask dimensions; returns
unchanged (silent no-op) when the image does not hold exactly 3 lines,
a dimension is zero (falsy), the buffer is unavailable, or the mask
already holds `Frame.maxLines` lines of either variant; otherwise clears
the mask canvas and walks every image line into a propagated
`PixelLine`. -/
def propagateLinesToMask (f : FrameM) : FrameM :=
  let lines := f.imageCanvas.fluidLines
  let mask? := f.maskCanvas.originalImageData
  let rows := f.maskCanvas.height
  let cols := f.maskCanvas.width
  if lines.length ≠ 3 ∨ rows = 0 ∨ cols = 0 ∨ mask? = none then f
  else if f.maskCanvas.fluidLines.length = frameMaxLines ∨
      f.maskCanvas.pixelLines.length = frameMaxLines then f
  else
    let mask := mask?.getD []
    let cleared := undoAll f.maskCanvas
    let updated := lines.foldl
      (fun m line => addPixelLine m (propagateLine mask (rows : ℤ) line) true) cleared
    { f with maskCanvas := updated }

/-- A tiny heap of `Uint8ClampedArray` objects: arrays are references
(indices) into a store of contents, so that the aliasing behaviour of
`getOriginalImageData` can be stated. -/
structure Store where
  arrays : List (List ℕ)
deriving DecidableEq

/-- Dereference an array. -/
def readArr (σ : Store) (r : ℕ) : List ℕ := σ.arrays.getD r []

/-- Allocate a fresh array with the given contents; its reference is the
previous heap size, so it is distinct from every existing reference. -/
def allocArr (σ : Store) (v : List ℕ) : Store × ℕ :=
  (Store.mk (σ.arrays ++ [v]), σ.arrays.length)

/-- Overwrite one element of an existing array (a caller-side
`arr[i] = v`). -/
def writeArr (σ : Store) (r i v : ℕ) : Store :=
  Store.mk (σ.arrays.set r ((σ.arrays.getD r []).set i v))

/-- `getOriginalImageData` (src/src/Canvas/Canvas.tsx lines 130-133):
`return this.originalImageData?.data.map((x) => x)`.  Uint8ClampedArray's
`map` allocates a new array, so the returned reference is fresh; an
unavailable buffer yields `undefined`. -/
def getOriginalImageData (σ : Store) (bufRef : Option ℕ) : Store × Option ℕ :=
  match bufRef with
  | none => (σ, none)
  | some r =>
      let alloc := allocArr σ ((readArr σ r).map (fun x => x))
      (alloc.1, some alloc.2)

/-- The concrete 4x2 RGBA mask buffer used to exhibit the indexing slip of
the propagation loop: the top row (y = 0) is opaque black, the bottom row
(y = 1) is opaque white.  Width 4, height 2, 32 bytes. -/
def bugMask : List ℕ :=
  [0, 0, 0, 255, 0, 0, 0, 255, 0, 0, 0, 255, 0, 0, 0, 255,
   255, 255, 255, 255, 255, 255, 255, 255, 255, 255, 255, 255, 255, 255, 255, 255]

/-- A horizontal source line across the white row of `bugMask`. -/
def bugLine : FluidLine := FluidLine.mk (Point.mk 0 1) (Point.mk 3 1)

/-- At most one of the two per-variant line collections is non-empty. -/
def variantExclusive (c : CanvasM) : Prop :=
  c.fluidLines = [] ∨ c.pixelLines = []

/-!  Helper lemmas about the embedded operations. -/

theorem addFluidLine_pixel_nonempty (c : CanvasM) (line : FluidLine) (save : Bool)
    (h : c.pixelLines ≠ []) : addFluidLine c line save = c := by
  unfold addFluidLine
  rw [if_neg]
  rintro ⟨-, h0⟩
  exact h (List.length_eq_zero.mp h0)

theorem addPixelLine_fluid_nonempty (c : CanvasM) (pl : PixelLine) (save : Bool)
    (h : c.fluidLines ≠ []) : addPixelLine c pl save = c := by
  unfold addPixelLine
  rw [if_neg]
  rintro ⟨-, h0⟩
  exact h (List.length_eq_zero.mp h0)

theorem stepCanvas_variantExclusive (op : CanvasOp) (c : CanvasM)
    (h : variantExclusive c) : variantExclusive (stepCanvas op c) := by
  cases op with
  | addFluidLine line =>
      simp only [stepCanvas, addFluidLine]
      by_cases hg : c.fluidLines.length < c.maxLines ∧ c.pixelLines.length = 0
      · rw [if_pos hg]
        have hp : c.pixelLines = [] := List.length_eq_zero.mp hg.2
        simp [variantExclusive, hp]
      · rw [if_neg hg]; exact h
  | addPixelLine pixelLine =>
      simp only [stepCanvas, addPixelLine]
      by_cases hg : c.pixelLines.length < c.maxLines ∧ c.fluidLines.length = 0
      · rw [if_pos hg]
        have hp : c.fluidLines = [] := List.length_eq_zero.mp hg.2
        simp [variantExclusive, hp]
      · rw [if_neg hg]; exact h
  | undoLast =>
      rcases hl : c.lastObjectType with - | v
      · simpa [stepCanvas, undoLast, hl] using h
      · cases v
        · rcases h with h | h
          · exact Or.inl (by simp [stepCanvas, undoLast, hl, h])
          · exact Or.inr (by simp [stepCanvas, undoLast, hl, h])
        · rcases h with h | h
          · exact Or.inl (by simp [stepCanvas, undoLast, hl, h])
          · exact Or.inr (by simp [stepCanvas, undoLast, hl, h])
  | undoAll => simp [stepCanvas, undoAll, variantExclusive]
  | toggleEdit => simpa [stepCanvas, toggleEdit, variantExclusive] using h

theorem applyOps_variantExclusive (ops : List CanvasOp) (c : CanvasM)
    (h : variantExclusive c) : variantExclusive (applyOps ops c) := by
  induction ops generalizing c with
  | nil => exact h
  | cons op rest ih =>
      exact ih (stepCanvas op c) (stepCanvas_variantExclusive op c h)

/-- C6: for every surface whose stored line count of the corresponding
variant is already at least `maxLines`, the add operation (`addFluidLine`
or `addPixelLine`) is rejected as a complete no-op: the resulting state —
in particular all three line collections and `editMode` — equals the
state before the call. -/
theorem addLine_full_is_noop :
    (∀ (c : CanvasM) (line : FluidLine) (save : Bool),
        c.maxLines ≤ c.fluidLines.length → addFluidLine c line save = c) ∧
    (∀ (c : CanvasM) (pl : PixelLine) (save : Bool),
        c.maxLines ≤ c.pixelLines.length → addPixelLine c pl save = c) := by
  constructor
  · intro c line save h
    unfold addFluidLine
    rw [if_neg]
    rintro ⟨h1, -⟩
    omega
  · intro c pl save h
    unfold addPixelLine
    rw [if_neg]
    rintro ⟨h1, -⟩
    omega

/-- Witness for C6: a canvas already holding `maxLines = 3` fluid lines
rejects a further `addFluidLine` unchanged. -/
theorem addLine_full_is_noop_witness :
    (CanvasM.mk 3
        [CanvasLine.fluid (FluidLine.mk (Point.mk 0 0) (Point.mk 1 1)),
         CanvasLine.fluid (FluidLine.mk (Point.mk 0 0) (Point.mk 1 1)),
         CanvasLine.fluid (FluidLine.mk (Point.mk 0 0) (Point.mk 1 1))]
        [FluidLine.mk (Point.mk 0 0) (Point.mk 1 1),
         FluidLine.mk (Point.mk 0 0) (Point.mk 1 1),
         FluidLine.mk (Point.mk 0 0) (Point.mk 1 1)]
        [] false (some LineVariant.fluidVariant) 512 512 none).maxLines ≤
      (CanvasM.mk 3
        [CanvasLine.fluid (FluidLine.mk (Point.mk 0 0) (Point.mk 1 1)),
         CanvasLine.fluid (FluidLine.mk (Point.mk 0 0) (Point.mk 1 1)),
         CanvasLine.fluid (FluidLine.mk (Point.mk 0 0) (Point.mk 1 1))]
        [FluidLine.mk (Point.mk 0 0) (Point.mk 1 1),
         FluidLine.mk (Point.mk 0 0) (Point.mk 1 1),
         FluidLine.mk (Point.mk 0 0) (Point.mk 1 1)]
        [] false (some LineVariant.fluidVariant) 512 512 none).fluidLines.length ∧
    addFluidLine
      (CanvasM.mk 3
        [CanvasLine.fluid (FluidLine.mk (Point.mk 0 0) (Point.mk 1 1)),
         CanvasLine.fluid (FluidLine.mk (Point.mk 0 0) (Point.mk 1 1)),
         CanvasLine.fluid (FluidLine.mk (Point.mk 0 0) (Point.mk 1 1))]
        [FluidLine.mk (Point.mk 0 0) (Point.mk 1 1),
         FluidLine.mk (Point.mk 0 0) (Point.mk 1 1),
         FluidLine.mk (Point.mk 0 0) (Point.mk 1 1)]
        [] false (some LineVariant.fluidVariant) 512 512 none)
      (FluidLine.mk (Point.mk 2 2) (Point.mk 3 3)) true =
      CanvasM.mk 3
        [CanvasLine.fluid (FluidLine.mk (Point.mk 0 0) (Point.mk 1 1)),
         CanvasLine.fluid (FluidLine.mk (Point.mk 0 0) (Point.mk 1 1)),
         CanvasLine.fluid (FluidLine.mk (Point.mk 0 0) (Point.mk 1 1))]
        [FluidLine.mk (Point.mk 0 0) (Point.mk 1 1),
         FluidLine.mk (Point.mk 0 0) (Point.mk 1 1),
         FluidLine.mk (Point.mk 0 0) (Point.mk 1 1)]
        [] false (some LineVariant.fluidVariant) 512 512 none :=
  ⟨by decide, addLine_full_is_noop.1 _ _ _ (by decide)⟩

/-- C9: starting from an empty surface, every finite sequence of canvas
operations preserves the invariant that at most one of the fluid-line and
pixel-line collections is non-empty; moreover a fluid line can be
appended only while the pixel-line collection is empty and a pixel line
only while the fluid-line collection is empty. -/
theorem lines_variant_exclusivity :
    (∀ (maxL : ℕ) (ops : List CanvasOp),
        variantExclusive (applyOps ops (initCanvas maxL))) ∧
    (∀ (c : CanvasM) (line : FluidLine) (save : Bool),
        c.pixelLines ≠ [] → addFluidLine c line save = c) ∧
    (∀ (c : CanvasM) (pl : PixelLine) (save : Bool),
        c.fluidLines ≠ [] → addPixelLine c pl save = c) := by
  refine ⟨fun maxL ops => ?_, addFluidLine_pixel_nonempty, addPixelLine_fluid_nonempty⟩
  exact applyOps_variantExclusive ops (initCanvas maxL) (Or.inl rfl)

/-- Witness for C9: a canvas holding one pixel line rejects a fluid-line
addition unchanged. -/
theorem lines_variant_exclusivity_witness :
    (CanvasM.mk 3 [CanvasLine.pixel (mkPixelLine (Point.mk 0 0) (Point.mk 0 0))]
        [] [mkPixelLine (Point.mk 0 0) (Point.mk 0 0)] true
        (some LineVariant.pixelVariant) 512 512 none).pixelLines ≠ [] ∧
    addFluidLine
      (CanvasM.mk 3 [CanvasLine.pixel (mkPixelLine (Point.mk 0 0) (Point.mk 0 0))]
        [] [mkPixelLine (Point.mk 0 0) (Point.mk 0 0)] true
        (some LineVariant.pixelVariant) 512 512 none)
      (FluidLine.mk (Point.mk 0 0) (Point.mk 1 1)) true =
      CanvasM.mk 3 [CanvasLine.pixel (mkPixelLine (Point.mk 0 0) (Point.mk 0 0))]
        [] [mkPixelLine (Point.mk 0 0) (Point.mk 0 0)] true
        (some LineVariant.pixelVariant) 512 512 none :=
  ⟨by simp, lines_variant_exclusivity.2.1 _ _ _ (by simp)⟩

/-- C7 counterexample: the claim that `editMode` goes from `false` to
`true` only on an operator toggle with the line count of either variant
strictly below `maxLines` fails on two reachable scenarios.  After three
`addPixelLine` operations the surface holds a full set of 3 pixel lines
and `editMode = false`, yet `toggleEdit` (which consults only the
fluid-line count) flips `editMode` to `true`; and after toggling edit
mode off on the initial surface, `undoAll` — not a toggle — flips
`editMode` back to `true`. -/
theorem editMode_reentry_counterexample :
    (applyOps
        [CanvasOp.addPixelLine (mkPixelLine (Point.mk 0 0) (Point.mk 0 0)),
         CanvasOp.addPixelLine (mkPixelLine (Point.mk 0 0) (Point.mk 0 0)),
         CanvasOp.addPixelLine (mkPixelLine (Point.mk 0 0) (Point.mk 0 0))]
        (initCanvas 3)).editMode = false ∧
    (applyOps
        [CanvasOp.addPixelLine (mkPixelLine (Point.mk 0 0) (Point.mk 0 0)),
         CanvasOp.addPixelLine (mkPixelLine (Point.mk 0 0) (Point.mk 0 0)),
         CanvasOp.addPixelLine (mkPixelLine (Point.mk 0 0) (Point.mk 0 0))]
        (initCanvas 3)).pixelLines.length = 3 ∧
    (stepCanvas CanvasOp.toggleEdit
      (applyOps
        [CanvasOp.addPixelLine (mkPixelLine (Point.mk 0 0) (Point.mk 0 0)),
         CanvasOp.addPixelLine (mkPixelLine (Point.mk 0 0) (Point.mk 0 0)),
         CanvasOp.addPixelLine (mkPixelLine (Point.mk 0 0) (Point.mk 0 0))]
        (initCanvas 3))).editMode = true ∧
    (stepCanvas CanvasOp.toggleEdit
      (applyOps
        [CanvasOp.addPixelLine (mkPixelLine (Point.mk 0 0) (Point.mk 0 0)),
         CanvasOp.addPixelLine (mkPixelLine (Point.mk 0 0) (Point.mk 0 0)),
         CanvasOp.addPixelLine (mkPixelLine (Point.mk 0 0) (Point.mk 0 0))]
        (initCanvas 3))).pixelLines.length = 3 ∧
    (stepCanvas CanvasOp.toggleEdit (initCanvas 3)).editMode = false ∧
    (stepCanvas CanvasOp.undoAll
      (stepCanvas CanvasOp.toggleEdit (initCanvas 3))).editMode = true ∧
    CanvasOp.undoAll ≠ CanvasOp.toggleEdit := by
  with_unfolding_all decide

/-- C7 (amended): in any surface state, an operation step takes
`editMode` from `false` to `true` only when it is the operator's toggle
while the fluid-line count is strictly below `maxLines`, or when it is an
undo operation (`undoLast` or `undoAll`); the add operations never
re-enable edit mode. -/
theorem editMode_reentry_amended :
    ∀ (c : CanvasM) (op : CanvasOp),
      c.editMode = false → (stepCanvas op c).editMode = true →
      (op = CanvasOp.toggleEdit ∧ c.fluidLines.length < c.maxLines) ∨
        op = CanvasOp.undoLast ∨ op = CanvasOp.undoAll := by
  intro c op h0 h1
  cases op with
  | addFluidLine line =>
      exfalso
      simp only [stepCanvas, addFluidLine] at h1
      split_ifs at h1 with hg
      · simp [h0] at h1
      · simp [h0] at h1
  | addPixelLine pixelLine =>
      exfalso
      simp only [stepCanvas, addPixelLine] at h1
      split_ifs at h1 with hg
      · simp [h0] at h1
      · simp [h0] at h1
  | undoLast => exact Or.inr (Or.inl rfl)
  | undoAll => exact Or.inr (Or.inr rfl)
  | toggleEdit =>
      refine Or.inl ⟨rfl, ?_⟩
      simp only [stepCanvas, toggleEdit, h0] at h1
      simpa using h1

/-- Witness for C7 (amended): the `undoAll` step from an edit-disabled
initial surface satisfies the hypotheses and the conclusion. -/
theorem editMode_reentry_amended_witness :
    (stepCanvas CanvasOp.toggleEdit (initCanvas 3)).editMode = false ∧
    (stepCanvas CanvasOp.undoAll
        (stepCanvas CanvasOp.toggleEdit (initCanvas 3))).editMode = true ∧
    ((CanvasOp.undoAll = CanvasOp.toggleEdit ∧
        (stepCanvas CanvasOp.toggleEdit (initCanvas 3)).fluidLines.length <
          (stepCanvas CanvasOp.toggleEdit (initCanvas 3)).maxLines) ∨
      CanvasOp.undoAll = CanvasOp.undoLast ∨ CanvasOp.undoAll = CanvasOp.undoAll) :=
  ⟨by decide, by decide,
    editMode_reentry_amended _ CanvasOp.undoAll (by decide) (by decide)⟩

/-- C5: forward propagation is a silent no-op — the whole frame, and in
particular both surfaces' line collections, is left unchanged — whenever
any guard condition holds: the image canvas does not hold exactly 3
lines, the mask buffer is unavailable, the mask has zero height or width,
or the mask already holds a full set of `Frame.maxLines` lines of either
variant.  In particular it never replaces a full set of existing
measurements on the mask. -/
theorem propagateLinesToMask_guard_noop :
    ∀ f : FrameM,
      (f.imageCanvas.fluidLines.length ≠ 3 ∨
        f.maskCanvas.originalImageData = none ∨
        f.maskCanvas.height = 0 ∨
        f.maskCanvas.width = 0 ∨
        f.maskCanvas.fluidLines.length = frameMaxLines ∨
        f.maskCanvas.pixelLines.length = frameMaxLines) →
      propagateLinesToMask f = f := by
  intro f h
  simp only [propagateLinesToMask]
  split_ifs with h1 h2
  · rfl
  · rfl
  · exfalso
    push_neg at h1
    rcases h with h | h | h | h | h | h
    · exact h h1.1
    · exact h1.2.2.2 h
    · exact h1.2.1 h
    · exact h1.2.2.1 h
    · exact h2 (Or.inl h)
    · exact h2 (Or.inr h)

/-- Witness for C5: a frame whose image canvas holds no lines satisfies
the first guard, and propagation returns it unchanged. -/
theorem propagateLinesToMask_guard_noop_witness :
    ((FrameM.mk (initCanvas 3) (initCanvas 3)).imageCanvas.fluidLines.length ≠ 3 ∨
      (FrameM.mk (initCanvas 3) (initCanvas 3)).maskCanvas.originalImageData = none ∨
      (FrameM.mk (initCanvas 3) (initCanvas 3)).maskCanvas.height = 0 ∨
      (FrameM.mk (initCanvas 3) (initCanvas 3)).maskCanvas.width = 0 ∨
      (FrameM.mk (initCanvas 3) (initCanvas 3)).maskCanvas.fluidLines.length = frameMaxLines ∨
      (FrameM.mk (initCanvas 3) (initCanvas 3)).maskCanvas.pixelLines.length = frameMaxLines) ∧
    propagateLinesToMask (FrameM.mk (initCanvas 3) (initCanvas 3)) =
      FrameM.mk (initCanvas 3) (initCanvas 3) :=
  ⟨Or.inl (by decide), propagateLinesToMask_guard_noop _ (Or.inl (by decide))⟩

theorem zoomStep_lower_bound (z m : ℝ) (hz : maxZoomOut ≤ z) :
    maxZoomOut ≤ zoomStep z m := by
  have hz0 : z ≠ 0 := by
    have : (0 : ℝ) < maxZoomOut := by norm_num [maxZoomOut]
    intro h0
    rw [h0] at hz
    linarith
  simp only [zoomStep]
  split_ifs with h
  · rw [mul_comm, div_mul_cancel₀ _ hz0]
  · exact le_of_not_lt h

theorem foldl_zoomStep_lower_bound (ms : List ℝ) :
    ∀ z : ℝ, maxZoomOut ≤ z → maxZoomOut ≤ List.foldl zoomStep z ms := by
  induction ms with
  | nil => intro z hz; exact hz
  | cons m rest ih =>
      intro z hz
      exact ih (zoomStep z m) (zoomStep_lower_bound z m hz)

/-- C4: with `scaleFactor = 1.1` and configured minimum `maxZoomOut =
0.2`, after any finite sequence of `zoom` calls with arbitrary real
magnitudes the cumulative zoom factor starting at 1 never drops below
0.2; and whenever a step's proposed factor would undershoot the minimum,
the step multiplies by the clamped factor `maxZoomOut / zoomFactor`
instead. -/
theorem zoom_clamp_invariant :
    scaleFactor = 1.1 ∧ maxZoomOut = 0.2 ∧
    (∀ magnitudes : List ℝ, (0.2 : ℝ) ≤ List.foldl zoomStep 1 magnitudes) ∧
    (∀ z m : ℝ, z * scaleFactor ^ m < maxZoomOut →
        zoomStep z m = z * (maxZoomOut / z)) := by
  refine ⟨rfl, rfl, fun magnitudes => ?_, fun z m h => ?_⟩
  · have h1 : maxZoomOut ≤ (1 : ℝ) := by norm_num [maxZoomOut]
    have := foldl_zoomStep_lower_bound magnitudes 1 h1
    calc (0.2 : ℝ) = maxZoomOut := by norm_num [maxZoomOut]
    _ ≤ _ := this
  · simp only [zoomStep]
    rw [if_pos h]

/-- Witness for C4: at zoom factor 0.1 a zoom of magnitude 0 would
undershoot the minimum, and the step applies the clamped factor. -/
theorem zoom_clamp_invariant_witness :
    (0.1 : ℝ) * scaleFactor ^ (0 : ℝ) < maxZoomOut ∧
    zoomStep 0.1 0 = 0.1 * (maxZoomOut / 0.1) :=
  ⟨by rw [Real.rpow_zero]; norm_num [maxZoomOut],
    zoom_clamp_invariant.2.2.2 0.1 0 (by rw [Real.rpow_zero]; norm_num [maxZoomOut])⟩

theorem readArr_allocArr_lt (σ : Store) (v : List ℕ) (r : ℕ)
    (h : r < σ.arrays.length) : readArr (allocArr σ v).1 r = readArr σ r := by
  simp only [readArr, allocArr]
  exact List.getD_append _ _ _ _ h

theorem readArr_allocArr_fresh (σ : Store) (v : List ℕ) :
    readArr (allocArr σ v).1 σ.arrays.length = v := by
  simp [readArr, allocArr, List.getD_eq_getElem?_getD]

theorem readArr_writeArr_ne (σ : Store) (n i v r : ℕ) (h : n ≠ r) :
    readArr (writeArr σ n i v) r = readArr σ r := by
  simp [readArr, writeArr, List.getD_eq_getElem?_getD, List.getElem?_set_ne h]

theorem getOriginalImageData_some (σ : Store) (r : ℕ) :
    getOriginalImageData σ (some r) =
      ((allocArr σ ((readArr σ r).map (fun x => x))).1, some σ.arrays.length) := rfl

/-- C10: `getOriginalImageData` returns a fresh element-wise copy of the
captured background buffer, not a reference to it: the returned reference
is distinct from the stored one and its contents equal the buffer's;
writing through the returned reference leaves the stored buffer
unchanged; a second call still returns the original contents; and the
propagation walk over the stored buffer is unaffected by caller-side
writes to a previously returned array. -/
theorem getOriginalImageData_fresh_copy :
    ∀ (σ : Store) (r : ℕ), r < σ.arrays.length → ∀ (i v : ℕ),
      (getOriginalImageData σ (some r)).2 = some σ.arrays.length ∧
      σ.arrays.length ≠ r ∧
      readArr (getOriginalImageData σ (some r)).1 σ.arrays.length = readArr σ r ∧
      readArr (writeArr (getOriginalImageData σ (some r)).1 σ.arrays.length i v) r =
        readArr σ r ∧
      readArr (getOriginalImageData (getOriginalImageData σ (some r)).1 (some r)).1
          (getOriginalImageData σ (some r)).1.arrays.length =
        readArr (getOriginalImageData σ (some r)).1 σ.arrays.length ∧
      ∀ (rows : ℤ) (line : FluidLine),
        propagateLine
            (readArr (writeArr (getOriginalImageData σ (some r)).1 σ.arrays.length i v) r)
            rows line =
          propagateLine (readArr σ r) rows line := by
  intro σ r hr i v
  have hne : σ.arrays.length ≠ r := fun h => absurd (h ▸ hr) (lt_irrefl r)
  have hfresh : readArr (getOriginalImageData σ (some r)).1 σ.arrays.length = readArr σ r := by
    rw [getOriginalImageData_some]
    simpa using readArr_allocArr_fresh σ ((readArr σ r).map (fun x => x))
  have hold : readArr (getOriginalImageData σ (some r)).1 r = readArr σ r := by
    rw [getOriginalImageData_some]
    exact readArr_allocArr_lt σ _ r hr
  have hwrite :
      readArr (writeArr (getOriginalImageData σ (some r)).1 σ.arrays.length i v) r =
        readArr σ r := by
    rw [readArr_writeArr_ne _ _ _ _ _ hne, hold]
  refine ⟨rfl, hne, hfresh, hwrite, ?_, fun rows line => by rw [hwrite]⟩
  rw [getOriginalImageData_some ((getOriginalImageData σ (some r)).1) r]
  have := readArr_allocArr_fresh (getOriginalImageData σ (some r)).1
    ((readArr (getOriginalImageData σ (some r)).1 r).map (fun x => x))
  simpa [hold, hfresh] using this

/-- Witness for C10: on a store holding one three-byte buffer, the clone
semantics hold concretely. -/
theorem getOriginalImageData_fresh_copy_witness :
    0 < (Store.mk [[1, 2, 3]]).arrays.length ∧
    ((getOriginalImageData (Store.mk [[1, 2, 3]]) (some 0)).2 =
        some (Store.mk [[1, 2, 3]]).arrays.length ∧
      (Store.mk [[1, 2, 3]]).arrays.length ≠ 0 ∧
      readArr (getOriginalImageData (Store.mk [[1, 2, 3]]) (some 0)).1
          (Store.mk [[1, 2, 3]]).arrays.length =
        readArr (Store.mk [[1, 2, 3]]) 0 ∧
      readArr
          (writeArr (getOriginalImageData (Store.mk [[1, 2, 3]]) (some 0)).1
            (Store.mk [[1, 2, 3]]).arrays.length 1 9) 0 =
        readArr (Store.mk [[1, 2, 3]]) 0 ∧
      readArr
          (getOriginalImageData (getOriginalImageData (Store.mk [[1, 2, 3]]) (some 0)).1
            (some 0)).1
          (getOriginalImageData (Store.mk [[1, 2, 3]]) (some 0)).1.arrays.length =
        readArr (getOriginalImageData (Store.mk [[1, 2, 3]]) (some 0)).1
          (Store.mk [[1, 2, 3]]).arrays.length ∧
      ∀ (rows : ℤ) (line : FluidLine),
        propagateLine
            (readArr
              (writeArr (getOriginalImageData (Store.mk [[1, 2, 3]]) (some 0)).1
                (Store.mk [[1, 2, 3]]).arrays.length 1 9) 0)
            rows line =
          propagateLine (readArr (Store.mk [[1, 2, 3]]) 0) rows line) :=
  ⟨by decide, getOriginalImageData_fresh_copy (Store.mk [[1, 2, 3]]) 0 (by decide) 1 9⟩

/-- C2: on a surface with `maxLines = 3` holding exactly 3 lines whose
lengths sorted ascending are `[dmin, da, db]`, the diameter stenosis is
`2·dmin/(da+db)·100` and the area stenosis is
`2·π·(dmin/2)² / (π·(da/2)² + π·(db/2)²) · 100`, with no internal
rounding; with fewer than 3 lines both operations return `undefined`. -/
theorem stenosis_percentages :
    (∀ (c : CanvasM) (dmin da db : ℝ), c.maxLines = 3 →
        (c.lines.map lineLength).Perm [dmin, da, db] → dmin ≤ da → da ≤ db →
        computeDiameterStenosisPercentage c = some (2 * dmin / (da + db) * 100) ∧
        computeAreaStenosisPercentage c =
          some (2 * Real.pi * (dmin / 2) ^ 2 /
            (Real.pi * (da / 2) ^ 2 + Real.pi * (db / 2) ^ 2) * 100)) ∧
    (∀ c : CanvasM, c.maxLines = 3 → c.lines.length < 3 →
        computeDiameterStenosisPercentage c = none ∧
        computeAreaStenosisPercentage c = none) := by
  constructor
  · intro c dmin da db hmax hperm h1 h2
    have hlen3 : c.lines.length = 3 := by
      have := hperm.length_eq
      simpa using this
    have hsorted :
        (c.lines.map lineLength).insertionSort (· ≤ ·) = [dmin, da, db] := by
      refine List.eq_of_perm_of_sorted
        ((List.perm_insertionSort _ _).trans hperm)
        (List.sorted_insertionSort _ _) ?_
      simp only [List.sorted_cons, List.mem_cons, List.mem_singleton,
        List.sorted_nil, List.not_mem_nil, and_true]
      refine ⟨fun b hb => ?_, fun b hb => ?_, fun b hb => hb.elim⟩
      · rcases hb with rfl | hb
        · exact h1
        · rcases hb with rfl | h
          · exact le_trans h1 h2
          · simp at h
      · rcases hb with rfl | h
        · exact h2
        · simp at h
    have e1 : (0.5 : ℝ) * dmin = dmin / 2 := by ring
    have e2 : (0.5 : ℝ) * da = da / 2 := by ring
    have e3 : (0.5 : ℝ) * db = db / 2 := by ring
    constructor
    · simp only [computeDiameterStenosisPercentage]
      rw [if_neg (by omega), hsorted]
      simp [List.getD]
    · simp only [computeAreaStenosisPercentage]
      rw [if_neg (by omega), hsorted]
      simp only [List.getD_cons_zero, List.getD_cons_succ]
      rw [e1, e2, e3]
  · intro c hmax hlen
    constructor
    · simp only [computeDiameterStenosisPercentage]
      rw [if_pos (by omega)]
    · simp only [computeAreaStenosisPercentage]
      rw [if_pos (by omega)]

/-- Witness for C2: a surface holding three degenerate lines of length 0
satisfies the hypotheses; both formulas evaluate at [0, 0, 0]. -/
theorem stenosis_percentages_witness :
    ((CanvasM.mk 3
        [CanvasLine.fluid (FluidLine.mk (Point.mk 0 0) (Point.mk 0 0)),
         CanvasLine.fluid (FluidLine.mk (Point.mk 0 0) (Point.mk 0 0)),
         CanvasLine.fluid (FluidLine.mk (Point.mk 0 0) (Point.mk 0 0))]
        [FluidLine.mk (Point.mk 0 0) (Point.mk 0 0),
         FluidLine.mk (Point.mk 0 0) (Point.mk 0 0),
         FluidLine.mk (Point.mk 0 0) (Point.mk 0 0)]
        [] false (some LineVariant.fluidVariant) 512 512 none).lines.map
          lineLength).Perm [(0 : ℝ), 0, 0] ∧
    computeDiameterStenosisPercentage
        (CanvasM.mk 3
          [CanvasLine.fluid (FluidLine.mk (Point.mk 0 0) (Point.mk 0 0)),
           CanvasLine.fluid (FluidLine.mk (Point.mk 0 0) (Point.mk 0 0)),
           CanvasLine.fluid (FluidLine.mk (Point.mk 0 0) (Point.mk 0 0))]
          [FluidLine.mk (Point.mk 0 0) (Point.mk 0 0),
           FluidLine.mk (Point.mk 0 0) (Point.mk 0 0),
           FluidLine.mk (Point.mk 0 0) (Point.mk 0 0)]
          [] false (some LineVariant.fluidVariant) 512 512 none) =
      some (2 * 0 / (0 + 0) * 100) := by
  have hmap :
      ((CanvasM.mk 3
        [CanvasLine.fluid (FluidLine.mk (Point.mk 0 0) (Point.mk 0 0)),
         CanvasLine.fluid (FluidLine.mk (Point.mk 0 0) (Point.mk 0 0)),
         CanvasLine.fluid (FluidLine.mk (Point.mk 0 0) (Point.mk 0 0))]
        [FluidLine.mk (Point.mk 0 0) (Point.mk 0 0),
         FluidLine.mk (Point.mk 0 0) (Point.mk 0 0),
         FluidLine.mk (Point.mk 0 0) (Point.mk 0 0)]
        [] false (some LineVariant.fluidVariant) 512 512 none).lines.map
          lineLength) = [(0 : ℝ), 0, 0] := by
    simp [lineLength, computeLength]
  refine ⟨by rw [hmap], ?_⟩
  exact (stenosis_percentages.1 _ 0 0 0 rfl (by rw [hmap]) le_rfl le_rfl).1

/-- C8: the PixelLine from (0,0) to (5,2) has slope [1, 0.4], its pixel
path is exactly (0,0),(1,0),(2,1),(3,1),(4,2),(5,2), and its length is
√29, which rounds to 5.3852 at four decimal places. -/
theorem pixelLine_example_values :
    (mkPixelLine (Point.mk 0 0) (Point.mk 5 2)).slope = (1, 0.4) ∧
    (mkPixelLine (Point.mk 0 0) (Point.mk 5 2)).points =
      [(0, 0), (1, 0), (2, 1), (3, 1), (4, 2), (5, 2)] ∧
    computeLength (Point.mk 0 0) (Point.mk 5 2) = Real.sqrt 29 ∧
    round (computeLength (Point.mk 0 0) (Point.mk 5 2) * 10 ^ 4) = 53852 := by
  have hlen : computeLength (Point.mk 0 0) (Point.mk 5 2) = Real.sqrt 29 := by
    simp only [computeLength]
    norm_num
  refine ⟨by with_unfolding_all rfl, by with_unfolding_all rfl, hlen, ?_⟩
  rw [hlen, round_eq]
  have h29 : Real.sqrt 29 ^ 2 = 29 := Real.sq_sqrt (by norm_num)
  have hnn : (0 : ℝ) ≤ Real.sqrt 29 := Real.sqrt_nonneg 29
  have hlb : (5.38515 : ℝ) ≤ Real.sqrt 29 := by nlinarith [h29, hnn]
  have hub : Real.sqrt 29 < (5.38525 : ℝ) := by nlinarith [h29, hnn]
  rw [Int.floor_eq_iff]
  constructor
  · push_cast
    linarith
  · push_cast
    linarith

/-- C1 (evaluation at the failing input): the propagation loop computes
byte offsets with the target's height as the row stride
(`roundedCol*rows*4 + roundedRow*4`), not its width as the claim states.
On a 4x2 (width 4, height 2) RGBA mask whose top row is black and bottom
row white, the two offset formulas disagree at visited pixel (1,1)
(12 versus 20); the white pixel (0,1) is classified white at the
spec offset 16 but not at the code offset 8; and as a result the
propagated line for a source line (0,1)-(3,1) starts at (2,1) instead of
at (0,1). -/
theorem propagate_index_uses_height_stride :
    maskIndex 2 1 1 = 12 ∧
    specIndex 4 1 1 = 20 ∧
    maskIndex 2 1 1 ≠ specIndex 4 1 1 ∧
    isWhite bugMask (specIndex 4 0 1) = true ∧
    isWhite bugMask (maskIndex 2 0 1) = false ∧
    (propagateLine bugMask 2 bugLine).startPoint = Point.mk 2 1 ∧
    (propagateLine bugMask 2 bugLine).endPoint = Point.mk 3 1 := by
  with_unfolding_all decide

/-!  Lemmas about the pixel walk, towards the (amended) endpoint claim. -/

theorem num_pos_of_div_pos {p q : ℚ} (hq : 0 < q) (h : 0 < p / q) : 0 < p := by
  rcases div_pos_iff.mp h with ⟨hp, -⟩ | ⟨-, hq'⟩
  · exact hp
  · linarith

theorem num_nonpos_of_not_div_pos {p q : ℚ} (hq : 0 < q) (h : ¬ 0 < p / q) : p ≤ 0 := by
  by_contra hp
  exact h (div_pos (lt_of_not_le hp) hq)

theorem walkCond_iff (slope : ℚ × ℚ) (eX eY x y : ℚ) :
    walkCond slope eX eY x y = true ↔
      ((if 0 < slope.1 then x ≤ eX else eX ≤ x) ∧
        (if 0 < slope.2 then y ≤ eY else eY ≤ y)) := by
  unfold walkCond
  by_cases h1 : 0 < slope.1 <;> by_cases h2 : 0 < slope.2 <;> simp [h1, h2]

theorem walkCond_false_fst (slope : ℚ × ℚ) (eX eY x y : ℚ)
    (h : ¬ (if 0 < slope.1 then x ≤ eX else eX ≤ x)) :
    walkCond slope eX eY x y = false := by
  unfold walkCond
  by_cases h1 : 0 < slope.1
  · rw [if_pos h1] at h ⊢
    simp [h]
  · rw [if_neg h1] at h ⊢
    simp [h]

theorem walkCond_false_snd (slope : ℚ × ℚ) (eX eY x y : ℚ)
    (h : ¬ (if 0 < slope.2 then y ≤ eY else eY ≤ y)) :
    walkCond slope eX eY x y = false := by
  unfold walkCond
  by_cases h2 : 0 < slope.2
  · rw [if_pos h2] at h ⊢
    simp [h]
  · rw [if_neg h2] at h ⊢
    simp [h]

/-- One step-count bound on either axis: after `k ≤ q` unit fractions of
the normalized slope `delta / q`, the walking coordinate has not passed
the endpoint `u + delta`, on whichever side the loop guard tests. -/
theorem walk_step_cond (u delta q k : ℚ) (hq : 0 < q) (hk : k ≤ q) :
    if 0 < delta / q then u + k * (delta / q) ≤ u + delta
    else u + delta ≤ u + k * (delta / q) := by
  by_cases h : 0 < delta / q
  · rw [if_pos h]
    have hd : 0 < delta := num_pos_of_div_pos hq h
    have h1 : k * (delta / q) ≤ q * (delta / q) :=
      mul_le_mul_of_nonneg_right hk (div_pos hd hq).le
    have h2 : q * (delta / q) = delta := by field_simp
    linarith
  · rw [if_neg h]
    have hd : delta ≤ 0 := num_nonpos_of_not_div_pos hq h
    have hw : delta / q ≤ 0 := div_nonpos_iff.mpr (Or.inr ⟨hd, hq.le⟩)
    have h1 : q * (delta / q) ≤ k * (delta / q) := mul_le_mul_of_nonpos_right hk hw
    have h2 : q * (delta / q) = delta := by field_simp
    linarith

/-- On the dominant axis (`q = |delta|`, `delta ≠ 0`), a step count
strictly beyond `q` fails the loop guard. -/
theorem walk_step_fail (u delta q k : ℚ) (hq : q = |delta|) (hd : delta ≠ 0)
    (hk : q < k) :
    ¬ (if 0 < delta / q then u + k * (delta / q) ≤ u + delta
        else u + delta ≤ u + k * (delta / q)) := by
  rcases lt_or_gt_of_ne hd with hneg | hpos
  · have hdq : delta / q = -1 := by
      rw [hq, abs_of_neg hneg, div_neg, div_self hd]
    rw [hdq]
    rw [if_neg (by norm_num)]
    intro hcon
    rw [hq, abs_of_neg hneg] at hk
    nlinarith
  · have hdq : delta / q = 1 := by
      rw [hq, abs_of_pos hpos]
      exact div_self hd
    rw [hdq, if_pos (by norm_num : (0:ℚ) < 1)]
    intro hcon
    rw [hq, abs_of_pos hpos] at hk
    nlinarith

theorem pixelSlope_domX (s e : Point) (habs : |e.x - s.x| > |e.y - s.y|) :
    pixelSlope s e = ((e.x - s.x) / |e.x - s.x|, (e.y - s.y) / |e.x - s.x|) := by
  have hdx0 : e.x - s.x ≠ 0 := by
    intro h0
    rw [h0, abs_zero] at habs
    exact absurd habs (not_lt.mpr (abs_nonneg _))
  simp only [pixelSlope]
  rw [if_pos habs]
  by_cases hdx : e.x - s.x > 0
  · rw [if_pos hdx, abs_of_pos hdx, div_self hdx0]
  · have hdx' : e.x - s.x < 0 := lt_of_le_of_ne (not_lt.mp hdx) hdx0
    rw [if_neg hdx, abs_of_neg hdx', div_neg, div_neg, div_self hdx0]

theorem pixelSlope_domY (s e : Point) (habs : ¬ |e.x - s.x| > |e.y - s.y|)
    (hdy0 : e.y - s.y ≠ 0) :
    pixelSlope s e = ((e.x - s.x) / |e.y - s.y|, (e.y - s.y) / |e.y - s.y|) := by
  simp only [pixelSlope]
  rw [if_neg habs]
  by_cases hdy : e.y - s.y > 0
  · rw [if_pos hdy, abs_of_pos hdy, div_self hdy0]
  · have hdy' : e.y - s.y < 0 := lt_of_le_of_ne (not_lt.mp hdy) hdy0
    rw [if_neg hdy, abs_of_neg hdy', div_neg, div_neg, div_self hdy0]

theorem pixelSlope_degenerate (s e : Point) (hx : e.x = s.x) (hy : e.y = s.y) :
    pixelSlope s e = (0, -1) := by
  simp [pixelSlope, hx, hy]

/-- The first loop-guard test of the pixel walk always succeeds at the
start position, for every pair of endpoints. -/
theorem walkCond_start (s e : Point) :
    walkCond (pixelSlope s e) e.x e.y s.x s.y = true := by
  rw [walkCond_iff]
  have hex : s.x + (e.x - s.x) = e.x := by ring
  have hey : s.y + (e.y - s.y) = e.y := by ring
  by_cases habs : |e.x - s.x| > |e.y - s.y|
  · have hdx0 : e.x - s.x ≠ 0 := by
      intro h0
      rw [h0, abs_zero] at habs
      exact absurd habs (not_lt.mpr (abs_nonneg _))
    have habs0 : (0:ℚ) < |e.x - s.x| := abs_pos.mpr hdx0
    rw [pixelSlope_domX s e habs]
    constructor
    · have := walk_step_cond s.x (e.x - s.x) |e.x - s.x| 0 habs0 (abs_nonneg _)
      rw [hex] at this
      simpa using this
    · have := walk_step_cond s.y (e.y - s.y) |e.x - s.x| 0 habs0 (abs_nonneg _)
      rw [hey] at this
      simpa using this
  · by_cases hdy0 : e.y - s.y = 0
    · have hdx0 : e.x - s.x = 0 := by
        have h1 : |e.x - s.x| ≤ |e.y - s.y| := not_lt.mp habs
        rw [hdy0, abs_zero] at h1
        exact abs_eq_zero.mp (le_antisymm h1 (abs_nonneg _))
      rw [pixelSlope_degenerate s e (sub_eq_zero.mp hdx0) (sub_eq_zero.mp hdy0)]
      constructor
      · rw [if_neg (lt_irrefl (0:ℚ))]
        exact le_of_eq (sub_eq_zero.mp hdx0)
      · rw [if_neg (by norm_num : ¬ (0:ℚ) < -1)]
        exact le_of_eq (sub_eq_zero.mp hdy0)
    · have habs0 : (0:ℚ) < |e.y - s.y| := abs_pos.mpr hdy0
      rw [pixelSlope_domY s e habs hdy0]
      constructor
      · have := walk_step_cond s.x (e.x - s.x) |e.y - s.y| 0 habs0 (abs_nonneg _)
        rw [hex] at this
        simpa using this
      · have := walk_step_cond s.y (e.y - s.y) |e.y - s.y| 0 habs0 (abs_nonneg _)
        rw [hey] at this
        simpa using this

theorem walkAux_stop (slope : ℚ × ℚ) (eX eY : ℚ) (fuel : ℕ) (x y : ℚ) (lX lY : ℤ)
    (hc : walkCond slope eX eY x y = false) :
    walkAux slope eX eY fuel x y lX lY = [] := by
  cases fuel with
  | zero => rfl
  | succ n => simp [walkAux, hc]

theorem walkAux_head (slope : ℚ × ℚ) (eX eY : ℚ) (fuel : ℕ) (x y : ℚ) (lX lY : ℤ)
    (hf : fuel ≠ 0) (hc : walkCond slope eX eY x y = true)
    (hne : round x ≠ lX ∨ round y ≠ lY) :
    (walkAux slope eX eY fuel x y lX lY).head? = some (round x, round y) := by
  cases fuel with
  | zero => exact absurd rfl hf
  | succ n =>
      unfold walkAux
      rw [if_pos hc, if_pos hne]
      rfl

/-- If the loop guard holds for exactly the step counts `0, …, K` (with
fuel to spare), then the last recorded rounded point of the walk is the
rounded position after `K` steps, whether or not that point was pushed on
the final iteration. -/
theorem walkAux_getLastD (slope : ℚ × ℚ) (eX eY : ℚ) :
    ∀ (K fuel : ℕ) (x y : ℚ) (lX lY : ℤ), K < fuel →
      (∀ k : ℕ, k ≤ K →
        walkCond slope eX eY (x + (k : ℚ) * slope.1) (y + (k : ℚ) * slope.2) = true) →
      walkCond slope eX eY (x + ((K : ℚ) + 1) * slope.1)
        (y + ((K : ℚ) + 1) * slope.2) = false →
      (walkAux slope eX eY fuel x y lX lY).getLastD (lX, lY) =
        (round (x + (K : ℚ) * slope.1), round (y + (K : ℚ) * slope.2)) := by
  intro K
  induction K with
  | zero =>
      intro fuel x y lX lY hf H1 H2
      cases fuel with
      | zero => omega
      | succ n =>
          have hc : walkCond slope eX eY x y = true := by
            have := H1 0 le_rfl
            simpa using this
          have hc1 : walkCond slope eX eY (x + slope.1) (y + slope.2) = false := by
            have ex : x + ((0 : ℚ) + 1) * slope.1 = x + slope.1 := by ring
            have ey : y + ((0 : ℚ) + 1) * slope.2 = y + slope.2 := by ring
            rw [← ex, ← ey]
            simpa using H2
          unfold walkAux
          rw [if_pos hc]
          by_cases hne : round x ≠ lX ∨ round y ≠ lY
          · rw [if_pos hne, walkAux_stop _ _ _ _ _ _ _ _ hc1]
            simp
          · rw [if_neg hne, walkAux_stop _ _ _ _ _ _ _ _ hc1]
            push_neg at hne
            simp [hne.1, hne.2]
  | succ K ih =>
      intro fuel x y lX lY hf H1 H2
      cases fuel with
      | zero => omega
      | succ n =>
          have hc : walkCond slope eX eY x y = true := by
            simpa using H1 0 (Nat.zero_le _)
          have H1' : ∀ k : ℕ, k ≤ K →
              walkCond slope eX eY ((x + slope.1) + (k : ℚ) * slope.1)
                ((y + slope.2) + (k : ℚ) * slope.2) = true := by
            intro k hk
            have h := H1 (k + 1) (by omega)
            have ex : x + ((k + 1 : ℕ) : ℚ) * slope.1 =
                (x + slope.1) + (k : ℚ) * slope.1 := by push_cast; ring
            have ey : y + ((k + 1 : ℕ) : ℚ) * slope.2 =
                (y + slope.2) + (k : ℚ) * slope.2 := by push_cast; ring
            rwa [ex, ey] at h
          have H2' :
              walkCond slope eX eY ((x + slope.1) + ((K : ℚ) + 1) * slope.1)
                ((y + slope.2) + ((K : ℚ) + 1) * slope.2) = false := by
            have ex : x + (((K + 1 : ℕ) : ℚ) + 1) * slope.1 =
                (x + slope.1) + ((K : ℚ) + 1) * slope.1 := by push_cast; ring
            have ey : y + (((K + 1 : ℕ) : ℚ) + 1) * slope.2 =
                (y + slope.2) + ((K : ℚ) + 1) * slope.2 := by push_cast; ring
            rwa [ex, ey] at H2
          have ex' : (x + slope.1) + (K : ℚ) * slope.1 =
              x + ((K + 1 : ℕ) : ℚ) * slope.1 := by push_cast; ring
          have ey' : (y + slope.2) + (K : ℚ) * slope.2 =
              y + ((K + 1 : ℕ) : ℚ) * slope.2 := by push_cast; ring
          unfold walkAux
          rw [if_pos hc]
          by_cases hne : round x ≠ lX ∨ round y ≠ lY
          · rw [if_pos hne, List.getLastD_cons,
              ih n (x + slope.1) (y + slope.2) (round x) (round y) (by omega) H1' H2',
              ex', ey']
          · rw [if_neg hne,
              ih n (x + slope.1) (y + slope.2) lX lY (by omega) H1' H2', ex', ey']

/-- The head of every pixel path is the rounded start point. -/
theorem pixelLine_points_head (s e : Point) :
    (mkPixelLine s e).points.head? = some (round s.x, round s.y) := by
  have hfuel : walkFuel s e ≠ 0 := by unfold walkFuel; omega
  exact walkAux_head (pixelSlope s e) e.x e.y (walkFuel s e) s.x s.y
    (round s.x - 1) (round s.y - 1) hfuel (walkCond_start s e) (Or.inl (by omega))

/-- For integer endpoints, the walk runs for exactly
`max |Δx| |Δy| + 1` iterations: the loop guard holds up to the dominant
delta and fails one step later, and the final position is the endpoint
itself. -/
theorem pixel_walk_int (a b c d : ℤ) :
    ∃ K : ℕ,
      K < walkFuel (Point.mk (a : ℚ) (b : ℚ)) (Point.mk (c : ℚ) (d : ℚ)) ∧
      (a : ℚ) + (K : ℚ) *
          (pixelSlope (Point.mk (a : ℚ) (b : ℚ)) (Point.mk (c : ℚ) (d : ℚ))).1 = (c : ℚ) ∧
      (b : ℚ) + (K : ℚ) *
          (pixelSlope (Point.mk (a : ℚ) (b : ℚ)) (Point.mk (c : ℚ) (d : ℚ))).2 = (d : ℚ) ∧
      (∀ k : ℕ, k ≤ K →
        walkCond (pixelSlope (Point.mk (a : ℚ) (b : ℚ)) (Point.mk (c : ℚ) (d : ℚ)))
          (c : ℚ) (d : ℚ)
          ((a : ℚ) + (k : ℚ) *
            (pixelSlope (Point.mk (a : ℚ) (b : ℚ)) (Point.mk (c : ℚ) (d : ℚ))).1)
          ((b : ℚ) + (k : ℚ) *
            (pixelSlope (Point.mk (a : ℚ) (b : ℚ)) (Point.mk (c : ℚ) (d : ℚ))).2) = true) ∧
      walkCond (pixelSlope (Point.mk (a : ℚ) (b : ℚ)) (Point.mk (c : ℚ) (d : ℚ)))
          (c : ℚ) (d : ℚ)
          ((a : ℚ) + ((K : ℚ) + 1) *
            (pixelSlope (Point.mk (a : ℚ) (b : ℚ)) (Point.mk (c : ℚ) (d : ℚ))).1)
          ((b : ℚ) + ((K : ℚ) + 1) *
            (pixelSlope (Point.mk (a : ℚ) (b : ℚ)) (Point.mk (c : ℚ) (d : ℚ))).2) = false := by
  have hsx : (Point.mk (a : ℚ) (b : ℚ)).x = (a : ℚ) := rfl
  have hsy : (Point.mk (a : ℚ) (b : ℚ)).y = (b : ℚ) := rfl
  have hexx : (Point.mk (c : ℚ) (d : ℚ)).x = (c : ℚ) := rfl
  have hexy : (Point.mk (c : ℚ) (d : ℚ)).y = (d : ℚ) := rfl
  have hcc : (a : ℚ) + ((c : ℚ) - (a : ℚ)) = (c : ℚ) := by ring
  have hdd : (b : ℚ) + ((d : ℚ) - (b : ℚ)) = (d : ℚ) := by ring
  by_cases habs : |(c : ℚ) - (a : ℚ)| > |(d : ℚ) - (b : ℚ)|
  · -- dominant x axis
    have hdx0 : (c : ℚ) - (a : ℚ) ≠ 0 := by
      intro h0
      rw [h0, abs_zero] at habs
      exact absurd habs (not_lt.mpr (abs_nonneg _))
    have habs0 : (0 : ℚ) < |(c : ℚ) - (a : ℚ)| := abs_pos.mpr hdx0
    have hsl := pixelSlope_domX (Point.mk (a : ℚ) (b : ℚ)) (Point.mk (c : ℚ) (d : ℚ))
      (by rw [hsx, hsy, hexx, hexy]; exact habs)
    rw [hsx, hsy, hexx, hexy] at hsl
    have hKq : (((c - a).natAbs : ℕ) : ℚ) = |(c : ℚ) - (a : ℚ)| := by
      rw [Int.cast_natAbs]
      push_cast
      ring_nf
    refine ⟨(c - a).natAbs, ?_, ?_, ?_, ?_, ?_⟩
    · unfold walkFuel
      have h1 : ⌈|(Point.mk (c : ℚ) (d : ℚ)).x - (Point.mk (a : ℚ) (b : ℚ)).x|⌉ =
          ((c - a).natAbs : ℤ) := by
        rw [hsx, hexx, ← hKq, Int.ceil_natCast]
      have h2 : 0 ≤ ⌈|(Point.mk (c : ℚ) (d : ℚ)).y - (Point.mk (a : ℚ) (b : ℚ)).y|⌉ :=
        Int.ceil_nonneg (abs_nonneg _)
      omega
    · rw [hsl, hKq]
      field_simp
    · rw [hsl, hKq]
      field_simp
    · intro k hk
      have hkq : (k : ℚ) ≤ |(c : ℚ) - (a : ℚ)| := by
        rw [← hKq]
        exact_mod_cast hk
      rw [hsl, walkCond_iff]
      constructor
      · have := walk_step_cond (a : ℚ) ((c : ℚ) - (a : ℚ)) |(c : ℚ) - (a : ℚ)| (k : ℚ)
          habs0 hkq
        rw [hcc] at this
        exact this
      · have := walk_step_cond (b : ℚ) ((d : ℚ) - (b : ℚ)) |(c : ℚ) - (a : ℚ)| (k : ℚ)
          habs0 hkq
        rw [hdd] at this
        exact this
    · rw [hsl]
      apply walkCond_false_fst
      have hklt : |(c : ℚ) - (a : ℚ)| < ((c - a).natAbs : ℚ) + 1 := by
        rw [← hKq]
        linarith
      have := walk_step_fail (a : ℚ) ((c : ℚ) - (a : ℚ)) |(c : ℚ) - (a : ℚ)|
        (((c - a).natAbs : ℚ) + 1) rfl hdx0 hklt
      rw [hcc] at this
      exact this
  · by_cases hdy0 : (d : ℚ) - (b : ℚ) = 0
    · -- degenerate: both deltas vanish
      have hdx0 : (c : ℚ) - (a : ℚ) = 0 := by
        have h1 : |(c : ℚ) - (a : ℚ)| ≤ |(d : ℚ) - (b : ℚ)| := not_lt.mp habs
        rw [hdy0, abs_zero] at h1
        exact abs_eq_zero.mp (le_antisymm h1 (abs_nonneg _))
      have hsl := pixelSlope_degenerate (Point.mk (a : ℚ) (b : ℚ))
        (Point.mk (c : ℚ) (d : ℚ)) (by rw [hsx, hexx]; exact sub_eq_zero.mp hdx0)
        (by rw [hsy, hexy]; exact sub_eq_zero.mp hdy0)
      have hca : (c : ℚ) = (a : ℚ) := sub_eq_zero.mp hdx0
      have hdb : (d : ℚ) = (b : ℚ) := sub_eq_zero.mp hdy0
      refine ⟨0, ?_, ?_, ?_, ?_, ?_⟩
      · unfold walkFuel
        omega
      · rw [hsl]
        simpa using hca.symm
      · rw [hsl]
        simpa using hdb.symm
      · intro k hk
        interval_cases k
        rw [hsl, walkCond_iff]
        constructor
        · rw [if_neg (lt_irrefl (0 : ℚ))]
          simp [hca]
        · rw [if_neg (by norm_num : ¬ (0 : ℚ) < -1)]
          simp [hdb]
      · rw [hsl]
        apply walkCond_false_snd
        rw [if_neg (by norm_num : ¬ (0 : ℚ) < -1)]
        rw [hdb]
        intro hcon
        norm_num at hcon
    · -- dominant y axis
      have habs0 : (0 : ℚ) < |(d : ℚ) - (b : ℚ)| := abs_pos.mpr hdy0
      have hsl := pixelSlope_domY (Point.mk (a : ℚ) (b : ℚ)) (Point.mk (c : ℚ) (d : ℚ))
        (by rw [hsx, hsy, hexx, hexy]; exact habs) (by rw [hsy, hexy]; exact hdy0)
      rw [hsx, hsy, hexx, hexy] at hsl
      have hKq : (((d - b).natAbs : ℕ) : ℚ) = |(d : ℚ) - (b : ℚ)| := by
        rw [Int.cast_natAbs]
        push_cast
        ring_nf
      refine ⟨(d - b).natAbs, ?_, ?_, ?_, ?_, ?_⟩
      · unfold walkFuel
        have h1 : ⌈|(Point.mk (c : ℚ) (d : ℚ)).y - (Point.mk (a : ℚ) (b : ℚ)).y|⌉ =
            ((d - b).natAbs : ℤ) := by
          rw [hsy, hexy, ← hKq, Int.ceil_natCast]
        have h2 : 0 ≤ ⌈|(Point.mk (c : ℚ) (d : ℚ)).x - (Point.mk (a : ℚ) (b : ℚ)).x|⌉ :=
          Int.ceil_nonneg (abs_nonneg _)
        omega
      · rw [hsl, hKq]
        field_simp
      · rw [hsl, hKq]
        field_simp
      · intro k hk
        have hkq : (k : ℚ) ≤ |(d : ℚ) - (b : ℚ)| := by
          rw [← hKq]
          exact_mod_cast hk
        rw [hsl, walkCond_iff]
        constructor
        · have := walk_step_cond (a : ℚ) ((c : ℚ) - (a : ℚ)) |(d : ℚ) - (b : ℚ)| (k : ℚ)
            habs0 hkq
          rw [hcc] at this
          exact this
        · have := walk_step_cond (b : ℚ) ((d : ℚ) - (b : ℚ)) |(d : ℚ) - (b : ℚ)| (k : ℚ)
            habs0 hkq
          rw [hdd] at this
          exact this
      · rw [hsl]
        apply walkCond_false_snd
        have hklt : |(d : ℚ) - (b : ℚ)| < ((d - b).natAbs : ℚ) + 1 := by
          rw [← hKq]
          linarith
        have := walk_step_fail (b : ℚ) ((d : ℚ) - (b : ℚ)) |(d : ℚ) - (b : ℚ)|
          (((d - b).natAbs : ℚ) + 1) rfl hdy0 hklt
        rw [hdd] at this
        exact this

/-- C3 (amended): for every pair of endpoints the pixel path is non-empty
and its first point is (round(start.x), round(start.y)); when both
endpoints have integer coordinates — in particular for every line built
by the propagation walk — the last point is (round(end.x), round(end.y))
= (end.x, end.y).  (For fractional endpoints the walk can stop one pixel
short of round(end); see the counterexample.) -/
theorem pixelLine_path_endpoints :
    (∀ s e : Point, (mkPixelLine s e).points ≠ [] ∧
        (mkPixelLine s e).points.head? = some (round s.x, round s.y)) ∧
    (∀ a b c d : ℤ,
        (mkPixelLine (Point.mk (a : ℚ) (b : ℚ)) (Point.mk (c : ℚ) (d : ℚ))).points.getLast? =
          some (c, d)) := by
  constructor
  · intro s e
    have hh := pixelLine_points_head s e
    refine ⟨?_, hh⟩
    intro hnil
    rw [hnil] at hh
    simp at hh
  · intro a b c d
    obtain ⟨K, hKf, hex, hey, H1, H2⟩ := pixel_walk_int a b c d
    have hD := walkAux_getLastD
      (pixelSlope (Point.mk (a : ℚ) (b : ℚ)) (Point.mk (c : ℚ) (d : ℚ)))
      (c : ℚ) (d : ℚ) K
      (walkFuel (Point.mk (a : ℚ) (b : ℚ)) (Point.mk (c : ℚ) (d : ℚ)))
      (a : ℚ) (b : ℚ) (round ((a : ℚ)) - 1) (round ((b : ℚ)) - 1) hKf H1 H2
    rw [hex, hey] at hD
    have hDpts :
        (mkPixelLine (Point.mk (a : ℚ) (b : ℚ)) (Point.mk (c : ℚ) (d : ℚ))).points.getLastD
          (round ((a : ℚ)) - 1, round ((b : ℚ)) - 1) = (round ((c : ℚ)), round ((d : ℚ))) := hD
    have hh := pixelLine_points_head (Point.mk (a : ℚ) (b : ℚ)) (Point.mk (c : ℚ) (d : ℚ))
    have hnil :
        (mkPixelLine (Point.mk (a : ℚ) (b : ℚ)) (Point.mk (c : ℚ) (d : ℚ))).points ≠ [] := by
      intro h0
      rw [h0] at hh
      simp at hh
    rw [round_intCast, round_intCast] at hDpts
    rcases hlast : (mkPixelLine (Point.mk (a : ℚ) (b : ℚ))
        (Point.mk (c : ℚ) (d : ℚ))).points.getLast? with - | z
    · exact absurd (List.getLast?_eq_none_iff.mp hlast) hnil
    · rw [List.getLastD_eq_getLast?, hlast] at hDpts
      simpa using hDpts

/-- C3 counterexample: for start (0,0) and end (3/2, 0) the walked path
is [(0,0),(1,0)]; its last point (1,0) differs from
(round(end.x), round(end.y)) = (2,0). -/
theorem pixelLine_last_point_counterexample :
    (mkPixelLine (Point.mk 0 0) (Point.mk (3/2) 0)).points = [(0, 0), (1, 0)] ∧
    (mkPixelLine (Point.mk 0 0) (Point.mk (3/2) 0)).points.getLast? = some (1, 0) ∧
    round ((mkPixelLine (Point.mk 0 0) (Point.mk (3/2) 0)).endPoint.x) = 2 ∧
    round ((mkPixelLine (Point.mk 0 0) (Point.mk (3/2) 0)).endPoint.y) = 0 ∧
    (some ((1 : ℤ), (0 : ℤ)) ≠ some ((2 : ℤ), (0 : ℤ))) := by
  with_unfolding_all decide

end QCA
